import Mathlib

/-!
Verification of the HysteriaCompiler front end (src/parser.ts and
src/semanticAnalysis.ts), shallowly embedded in Lean.

Conventions of the embedding:
- TypeScript exceptions become an Except String result; the message text of
  each thrown Error is reproduced except that single-quote characters around
  interpolated names are dropped (they are not representable here).
- The runtime type of a checked expression is an Option String: some t is a
  type string (the sentinel string FunctionCall included), none is the JS
  null returned by a pending AssignmentExpression.
- Scopes are mutable heap objects in the source, aliased by pending calls;
  they are modelled as an arena (a list of ScopeData) indexed by Nat, with
  parent links by index, so that later mutations are visible through
  earlier-captured scope references exactly as in the source.
- JS number binding powers (0, 0.1, 1, 1.1, ..., 7.1) are scaled by 10 to
  Nat (0, 1, 10, 11, ..., 71); all comparisons performed by the source are
  preserved by this order-embedding.
- The parser and the pass-2 drain loop recurse on fuel; a sufficiency
  theorem shows the drain fuel chosen by analyze is never exhausted.
-/

namespace Hysteria

/-- Token produced by the scanner (tokenizer.ts). The source field named
type is called ttype here. -/
structure Token where
  lexeme : String
  ttype : String
  line : Nat
  column : Nat
deriving Repr, DecidableEq

/-- isType from parser.ts: recognised data-type words. -/
def isType (word : String) : Bool :=
  ["int", "string", "float", "void", "boolean"].contains word

/-- BINDING_POWER from parser.ts, scaled by 10 (left power, right power).
The source uses 0/0.1, 1/1.1, ..., 6.1/6 (caret is right-associative),
7/7.1. Returns none for a lexeme that is not an operator key. -/
def BINDING_POWER (op : String) : Option (Nat × Nat) :=
  match op with
  | "||" => some (0, 1)
  | "&&" => some (10, 11)
  | "==" => some (20, 21)
  | "!=" => some (20, 21)
  | "<" => some (30, 31)
  | "<=" => some (30, 31)
  | ">" => some (30, 31)
  | ">=" => some (30, 31)
  | "+" => some (40, 41)
  | "-" => some (40, 41)
  | "*" => some (50, 51)
  | "/" => some (50, 51)
  | "%" => some (50, 51)
  | "^" => some (61, 60)
  | "++" => some (70, 71)
  | "--" => some (70, 71)
  | _ => none

/-- AST nodes of parser.ts. Every node the parser builds is one of these
variants; the dynamic field set of each variant matches the object literals
in parser.ts. Function parameters are (dataType, name) pairs; an else-if
clause is a (condition, body) pair. The UnaryExpression field named prefix
in the source is called pfx here. -/
inductive ASTNode where
  | Literal (dataType : String) (name : String)
  | Identifier (name : String)
  | AssignmentExpression (left : ASTNode) (right : ASTNode)
  | BinaryExpression (operator : String) (left : ASTNode) (right : ASTNode)
  | UnaryExpression (operator : String) (argument : ASTNode) (pfx : Bool)
  | FunctionCall (name : String) (arguments : List ASTNode)
  | ExpressionStatement (expression : ASTNode)
  | VariableDeclaration (dataType : String) (name : String) (value : ASTNode)
  | FunctionDeclaration (returnType : String) (name : String)
      (parameters : List (String × String)) (body : List ASTNode)
  | ReturnStatement (value : ASTNode)
  | IfStatement (condition : ASTNode) (body : List ASTNode)
      (elseIf : List (ASTNode × List ASTNode)) (elseBody : List ASTNode)
  | WhileLoop (condition : ASTNode) (body : List ASTNode)
  | ForLoop (initialization : ASTNode) (condition : ASTNode)
      (increment : ASTNode) (body : List ASTNode)
  | ControlFlowStatement (flowType : String)
deriving Repr

/-- The dynamic node.type string of each AST node. -/
def typeTag : ASTNode → String
  | .Literal .. => "Literal"
  | .Identifier .. => "Identifier"
  | .AssignmentExpression .. => "AssignmentExpression"
  | .BinaryExpression .. => "BinaryExpression"
  | .UnaryExpression .. => "UnaryExpression"
  | .FunctionCall .. => "FunctionCall"
  | .ExpressionStatement .. => "ExpressionStatement"
  | .VariableDeclaration .. => "VariableDeclaration"
  | .FunctionDeclaration .. => "FunctionDeclaration"
  | .ReturnStatement .. => "ReturnStatement"
  | .IfStatement .. => "IfStatement"
  | .WhileLoop .. => "WhileLoop"
  | .ForLoop .. => "ForLoop"
  | .ControlFlowStatement .. => "ControlFlowStatement"

/-- The dynamic node.name field: some for variants carrying a name field
(for a Literal the source stores the lexeme under name), none where the
field is absent (JS undefined). -/
def nameOf : ASTNode → Option String
  | .Literal _ n => some n
  | .Identifier n => some n
  | .FunctionCall n _ => some n
  | .VariableDeclaration _ n _ => some n
  | .FunctionDeclaration _ n _ _ => some n
  | _ => none

/-- The dynamic node.arguments field: present only on FunctionCall. -/
def argumentsOf : ASTNode → Option (List ASTNode)
  | .FunctionCall _ args => some args
  | _ => none

mutual
/-- Size of an AST node (1 plus the sizes of all child nodes, list conses
counted); used as a termination measure and for the pass-2 fuel bound. -/
def sz : ASTNode → Nat
  | .Literal .. => 1
  | .Identifier _ => 1
  | .AssignmentExpression l r => 1 + sz l + sz r
  | .BinaryExpression _ l r => 1 + sz l + sz r
  | .UnaryExpression _ a _ => 1 + sz a
  | .FunctionCall _ args => 1 + szl args
  | .ExpressionStatement e => 1 + sz e
  | .VariableDeclaration _ _ v => 1 + sz v
  | .FunctionDeclaration _ _ _ b => 1 + szl b
  | .ReturnStatement v => 1 + sz v
  | .IfStatement c b ei e => 1 + sz c + szl b + szp ei + szl e
  | .WhileLoop c b => 1 + sz c + szl b
  | .ForLoop i c inc b => 1 + sz i + sz c + sz inc + szl b
  | .ControlFlowStatement _ => 1

/-- Size of a list of AST nodes. -/
def szl : List ASTNode → Nat
  | [] => 0
  | a :: l => 1 + sz a + szl l

/-- Size of a list of else-if clauses. -/
def szp : List (ASTNode × List ASTNode) → Nat
  | [] => 0
  | (c, b) :: l => 1 + sz c + szl b + szp l
end

theorem sz_pos : ∀ e, 0 < sz e := by
  intro e
  cases e <;> simp [sz]

/-! ## Parser: Pratt expression parsing (parseExpression in parser.ts)

The token cursor is an explicit index; the mutable module-level state of
the source becomes an index threaded through results. Recursion is on
fuel; every recursive call in the source consumes at least one token, so
any fuel at least the token count plus one reproduces the source. -/

mutual
/-- parseExpression from parser.ts: null denotation (literals, identifier
heads for calls, assignments and references, parenthesised expressions,
prefix increment and decrement), then hands the accumulated left node to
the infix loop. Returns the parsed node and the index after it. -/
def parseExpression (tokens : List Token) : Nat → Nat → Nat →
    Except String (ASTNode × Nat)
  | 0, _, _ => .error "fuel exhausted"
  | fuel+1, i, minBP =>
    match tokens.get? i with
    | none => .error "TypeError: cannot read properties of undefined"
    | some token =>
      if isType token.ttype then
        parseLoop tokens fuel (.Literal token.ttype token.lexeme) (i+1) minBP
      else if token.ttype = "identifier" then
        match tokens.get? (i+1) with
        | some t2 =>
          if t2.lexeme = "(" then
            match parseArgs tokens fuel (i+2) with
            | .error e => .error e
            | .ok (args, j) =>
              parseLoop tokens fuel (.FunctionCall token.lexeme args) j minBP
          else if t2.lexeme = "=" then
            match parseExpression tokens fuel (i+2) 0 with
            | .error e => .error e
            | .ok (v, j) =>
              parseLoop tokens fuel
                (.AssignmentExpression (.Identifier token.lexeme) v) j minBP
          else
            parseLoop tokens fuel (.Identifier token.lexeme) (i+1) minBP
        | none => parseLoop tokens fuel (.Identifier token.lexeme) (i+1) minBP
      else if token.lexeme = "(" then
        match parseExpression tokens fuel (i+1) 0 with
        | .error e => .error e
        | .ok (inner, j) =>
          match tokens.get? j with
          | some t =>
            if t.lexeme = ")" then parseLoop tokens fuel inner (j+1) minBP
            else .error ("Expected ), found " ++ t.lexeme)
          | none => .error "Unexpected end of input, expected )"
      else if token.ttype = "operator" &&
          (token.lexeme = "++" || token.lexeme = "--") then
        match BINDING_POWER token.lexeme with
        | some (_, rbp) =>
          match parseExpression tokens fuel (i+1) rbp with
          | .error e => .error e
          | .ok (arg, j) =>
            parseLoop tokens fuel (.UnaryExpression token.lexeme arg true) j minBP
        | none => .error "unreachable: ++ and -- have binding powers"
      else
        .error ("Unexpected token: " ++ token.lexeme)

/-- The left-denotation loop of parseExpression: postfix increment and
decrement wrap unconditionally; any other operator key with left binding
power at least minBP is consumed and its right side parsed at its right
binding power, building a BinaryExpression. -/
def parseLoop (tokens : List Token) : Nat → ASTNode → Nat → Nat →
    Except String (ASTNode × Nat)
  | 0, _, _, _ => .error "fuel exhausted"
  | fuel+1, left, i, minBP =>
    match tokens.get? i with
    | none => .ok (left, i)
    | some op =>
      match BINDING_POWER op.lexeme with
      | none => .ok (left, i)
      | some (lbp, rbp) =>
        if op.lexeme = "++" || op.lexeme = "--" then
          parseLoop tokens fuel (.UnaryExpression op.lexeme left false) (i+1) minBP
        else if lbp < minBP then .ok (left, i)
        else
          match parseExpression tokens fuel (i+1) rbp with
          | .error e => .error e
          | .ok (right, j) =>
            parseLoop tokens fuel (.BinaryExpression op.lexeme left right) j minBP

/-- The comma-separated argument loop of the FunctionCall null denotation;
returns the arguments and the index after the closing parenthesis. -/
def parseArgs (tokens : List Token) : Nat → Nat →
    Except String (List ASTNode × Nat)
  | 0, _ => .error "fuel exhausted"
  | fuel+1, i =>
    match tokens.get? i with
    | none => .error "TypeError: cannot read properties of undefined"
    | some t =>
      if t.lexeme = ")" then .ok ([], i+1)
      else
        match parseExpression tokens fuel i 0 with
        | .error e => .error e
        | .ok (a, j) =>
          let j2 := match tokens.get? j with
                    | some c => if c.lexeme = "," then j+1 else j
                    | none => j
          match parseArgs tokens fuel j2 with
          | .error e => .error e
          | .ok (rest, k) => .ok (a :: rest, k)
end

/-! ## Semantic analyzer state (semanticAnalysis.ts)

Scope objects are heap-allocated and aliased in the source (a pending call
keeps a reference to the scope it occurred in, and later function
declarations mutate ancestor scopes visibly through that reference), so
scopes live in an arena indexed by creation order and a pending call
stores the index. -/

/-- Analyzer failure: err is a thrown Error (or TypeError) of the source
with its message; fuel is exhaustion of the fuel that stands in for the
native call-stack depth, never produced by the source itself and proved
unreachable for the drain phase (claim C6). -/
inductive AErr where
  | err (msg : String)
  | fuel
deriving Repr, DecidableEq

/-- FunctionInfo from semanticAnalysis.ts; params are (name, type) pairs
in declaration order. -/
structure FunctionInfo where
  params : List (String × String)
  returnType : String
deriving Repr, DecidableEq

/-- One scope of the scope tree: parent index (none for the global scope),
scope name, and the two symbol tables (the source fields variables and
functions are called vars and funcs here; each maps a name to its
information, first match wins as in a JS Map). -/
structure ScopeData where
  parent : Option Nat
  name : String
  vars : List (String × String)
  funcs : List (String × FunctionInfo)
deriving Repr

/-- The branch field of an unresolvedCall: absent (undefined), the JS null
produced when the other operand was a pending assignment, an already
resolved type string, or the other operand AST node. -/
inductive BranchV where
  | noB
  | nullB
  | typeB (t : String)
  | nodeB (n : ASTNode)
deriving Repr

/-- unresolvedCall from semanticAnalysis.ts. -/
structure UCall where
  node : ASTNode
  scope : Nat
  assignToVar : Option String := none
  returnType : Option String := none
  branch : BranchV := .noB
  operator : Option String := none
deriving Repr

/-- Context frame for break/continue validation. -/
structure Context where
  inLoop : Bool
  inSwitch : Bool
deriving Repr, DecidableEq

/-- The mutable module-level state of semanticAnalysis.ts: the scope arena
(standing in for the heap of scope objects), callStack, contextStack.
Lists push and pop at the head, mirroring the end of a JS array. -/
structure AState where
  scopes : List ScopeData
  callStack : List UCall
  contextStack : List Context
deriving Repr

/-- JS truthiness of the branch field: undefined and null are falsy, a
string is truthy unless empty, a node object is truthy. -/
def branchTruthy : BranchV → Bool
  | .noB => false
  | .nullB => false
  | .typeB t => t ≠ ""
  | .nodeB _ => true

/-- JS truthiness of an optional string field (assignToVar, returnType). -/
def strTruthy : Option String → Bool
  | none => false
  | some s => s ≠ ""

/-- JS string interpolation of a checked-expression type (null prints as
the word null). -/
def showT : Option String → String
  | none => "null"
  | some s => s

/-- createScope: appends a fresh scope to the arena and returns its index. -/
def createScope (parent : Option Nat) (name : String) (st : AState) :
    Nat × AState :=
  (st.scopes.length,
   { st with scopes := st.scopes ++ [⟨parent, name, [], []⟩] })

/-- declareVariable: fails if the name is already in this scope. -/
def declareVariable (i : Nat) (name ty : String) (st : AState) :
    Except AErr AState :=
  match st.scopes.get? i with
  | none => .error (.err "TypeError: scope is undefined")
  | some sc =>
    if (sc.vars.lookup name).isSome then
      .error (.err ("Variable " ++ name ++ " already declared in this scope."))
    else
      .ok { st with scopes :=
        st.scopes.set i { sc with vars := sc.vars ++ [(name, ty)] } }

/-- declareFunction: fails if the name is already in this scope. -/
def declareFunction (i : Nat) (name : String) (info : FunctionInfo)
    (st : AState) : Except AErr AState :=
  match st.scopes.get? i with
  | none => .error (.err "TypeError: scope is undefined")
  | some sc =>
    if (sc.funcs.lookup name).isSome then
      .error (.err ("Function " ++ name ++ " already declared in this scope."))
    else
      .ok { st with scopes :=
        st.scopes.set i { sc with funcs := sc.funcs ++ [(name, info)] } }

/-- Walk of the parent chain for resolveVariable. Fuel bounds the walk; in
every state the analyzer builds, a parent index is strictly below the
child index, so fuel equal to the arena size plus one cannot run out. -/
def resolveVarChain (scopes : List ScopeData) : Nat → Nat → String →
    Option String
  | 0, _, _ => none
  | fuel+1, i, name =>
    match scopes.get? i with
    | none => none
    | some sc =>
      match sc.vars.lookup name with
      | some t => some t
      | none =>
        match sc.parent with
        | none => none
        | some p => resolveVarChain scopes fuel p name

/-- resolveVariable: search up the scope chain, innermost first. -/
def resolveVariable (i : Nat) (name : String) (st : AState) :
    Except AErr String :=
  match resolveVarChain st.scopes (st.scopes.length + 1) i name with
  | some t => .ok t
  | none => .error (.err ("Variable " ++ name ++ " is not defined."))

/-- Walk of the parent chain for resolveFunction. The name key is the
dynamic node.name, which can be JS undefined (none); a map never holds
that key, so the walk simply fails to find it anywhere. -/
def resolveFunChain (scopes : List ScopeData) : Nat → Nat → Option String →
    Option FunctionInfo
  | 0, _, _ => none
  | fuel+1, i, name =>
    match scopes.get? i with
    | none => none
    | some sc =>
      match (match name with
             | some n => sc.funcs.lookup n
             | none => none) with
      | some fi => some fi
      | none =>
        match sc.parent with
        | none => none
        | some p => resolveFunChain scopes fuel p name

/-- resolveFunction: search up the scope chain, innermost first. -/
def resolveFunction (i : Nat) (name : Option String) (st : AState) :
    Except AErr FunctionInfo :=
  match resolveFunChain st.scopes (st.scopes.length + 1) i name with
  | some fi => .ok fi
  | none =>
    .error (.err ("Function " ++ (name.getD "undefined") ++ " is not defined."))

/-- pushCall: a bare pending call. -/
def pushCall (n : ASTNode) (sc : Nat) (st : AState) : AState :=
  { st with callStack := { node := n, scope := sc } :: st.callStack }

/-- pushVarCall: a pending call assigned to a variable. -/
def pushVarCall (n : ASTNode) (sc : Nat) (v : Option String) (st : AState) :
    AState :=
  { st with callStack :=
      { node := n, scope := sc, assignToVar := v } :: st.callStack }

/-- pushReturnCall: a pending call in a return statement. -/
def pushReturnCall (n : ASTNode) (sc : Nat) (t : Option String)
    (st : AState) : AState :=
  { st with callStack :=
      { node := n, scope := sc, returnType := t } :: st.callStack }

/-- pushBranchCall: a pending call that is one operand of a binary
expression. -/
def pushBranchCall (n : ASTNode) (sc : Nat) (b : BranchV) (op : Option String)
    (st : AState) : AState :=
  { st with callStack :=
      { node := n, scope := sc, branch := b, operator := op } :: st.callStack }

/-- The branch value recorded for the already-typed other operand of a
binary expression: a type string, or JS null when that operand was itself
a pending assignment. -/
def toBranch : Option String → BranchV
  | none => .nullB
  | some s => .typeB s

/-! ## checkExpression (pass 1 expression typing)

All recursive analyzer functions take a fuel argument standing for the
native call-stack depth of the source, and every call into a recursive
analyzer function passes fuel minus one; a result of .error .fuel is a
modelling artefact that the source (which recurses natively) never
produces, and the fuel bounds chosen below are generous for the
structurally decreasing recursion of the source. -/

mutual
/-- checkExpression from semanticAnalysis.ts. Returns the type of the
expression: some type string, the sentinel some FunctionCall for a call
whose target is not resolved yet, or none (JS null) for an assignment
whose right side is pending. -/
def checkExpression : Nat → ASTNode → Nat → AState →
    Except AErr (Option String × AState)
  | 0, _, _, _ => .error .fuel
  | fuel+1, e, sc, st =>
    match e with
    | .Literal dt _ => .ok (some dt, st)
    | .Identifier name =>
      match resolveVariable sc name st with
      | .error er => .error er
      | .ok t => .ok (some t, st)
    | .AssignmentExpression left right =>
      match left with
      | .Identifier lname =>
        match checkExpression fuel right sc st with
        | .error er => .error er
        | .ok (rt, st1) =>
          if rt = some "FunctionCall" then
            .ok (none, pushVarCall right sc (some lname) st1)
          else
            match resolveVariable sc lname st1 with
            | .error er => .error er
            | .ok vt =>
              if some vt ≠ rt then
                .error (.err ("Type mismatch in assignment: variable " ++
                  lname ++ " is type " ++ vt ++ " but got " ++ showT rt))
              else .ok (some vt, st1)
      | _ => .error (.err ("Invalid assignment target: " ++ typeTag left))
    | .BinaryExpression _ _ _ => checkBinaryExpression fuel e sc st
    | .UnaryExpression _ a _ => checkExpression fuel a sc st
    | .FunctionCall _ _ => .ok (some "FunctionCall", st)
    | other => .error (.err ("Unknown expression type: " ++ typeTag other))

/-- checkBinaryExpression from semanticAnalysis.ts: type both operands;
if one is an unresolved call, record a pending branch entry pairing it
with what is known of the other side; otherwise the operand types must
match; comparisons yield boolean, logical operators require boolean,
arithmetic operators require int or float and yield the left type (int
when the left side is the unresolved-call sentinel). On a node of any
other kind the source would read undefined operand fields. -/
def checkBinaryExpression : Nat → ASTNode → Nat → AState →
    Except AErr (Option String × AState)
  | 0, _, _, _ => .error .fuel
  | fuel+1, expression, sc, st =>
    match expression with
    | .BinaryExpression op l r =>
      match checkExpression fuel l sc st with
      | .error er => .error er
      | .ok (lt, st1) =>
        match checkExpression fuel r sc st1 with
        | .error er => .error er
        | .ok (rt, st2) =>
          let st3 :=
            if lt = some "FunctionCall" ∧ rt = some "FunctionCall" then
              pushBranchCall l sc (.nodeB r) (some op) st2
            else if rt = some "FunctionCall" then
              pushBranchCall r sc (toBranch lt) (some op) st2
            else if lt = some "FunctionCall" then
              pushBranchCall l sc (toBranch rt) (some op) st2
            else st2
          if lt ≠ rt ∧ lt ≠ some "FunctionCall" ∧ rt ≠ some "FunctionCall" then
            .error (.err ("Type mismatch in expression: " ++ showT lt ++
              " and " ++ showT rt))
          else if op ∈ ["==", "!=", "<", ">", "<=", ">="] then
            .ok (some "boolean", st3)
          else if op ∈ ["&&", "||"] then
            if (lt ≠ some "boolean" ∨ rt ≠ some "boolean") ∧
                (lt ≠ some "FunctionCall" ∧ rt ≠ some "FunctionCall") then
              .error (.err ("Logical operators require boolean operands, got "
                ++ showT lt))
            else .ok (some "boolean", st3)
          else if op ∈ ["+", "-", "*", "/", "^", "%"] then
            if ((lt ≠ some "int" ∧ lt ≠ some "float") ∨
                (rt ≠ some "int" ∧ rt ≠ some "float")) ∧
                (lt ≠ some "FunctionCall" ∧ rt ≠ some "FunctionCall") then
              .error (.err ("Arithmetic operators require numeric operands, got "
                ++ showT lt))
            else .ok ((if lt = some "FunctionCall" then some "int" else lt), st3)
          else .ok (lt, st3)
    | _ => .error (.err "TypeError: not a BinaryExpression")
end

/-! ## Pass 1: statement analysis -/

/-- checkVariableDeclaration from semanticAnalysis.ts, applied to the
fields of the VariableDeclaration node: type-check the initializer, then
the eager type test, then register a pending call if needed, then declare
the variable. -/
def checkVariableDeclaration (fuel : Nat) (dt nm : String) (value : ASTNode)
    (sc : Nat) (st : AState) : Except AErr AState :=
  match checkExpression fuel value sc st with
  | .error er => .error er
  | .ok (vt, st1) =>
    if vt ≠ some "FunctionCall" ∧ some dt ≠ vt then
      .error (.err ("Type mismatch: variable " ++ nm ++ " is type " ++ dt ++
        " but got " ++ showT vt))
    else
      let st2 := if vt = some "FunctionCall"
                 then pushVarCall value sc (some nm) st1 else st1
      declareVariable sc nm dt st2

/-- The parameter loop of checkFunctionDeclaration: declare each parameter
as a variable of the function scope. -/
def declParams (fsc : Nat) : List (String × String) → AState →
    Except AErr AState
  | [], st => .ok st
  | (pdt, pnm) :: rest, st =>
    match declareVariable fsc pnm pdt st with
    | .error er => .error er
    | .ok st1 => declParams fsc rest st1

/-- checkReturn from semanticAnalysis.ts: the enclosing function is looked
up as resolveFunction(scope, scope.name), i.e. under the name of the
immediately enclosing scope. -/
def checkReturn (fuel : Nat) (value : ASTNode) (sc : Nat) (st : AState) :
    Except AErr AState :=
  match st.scopes.get? sc with
  | none => .error (.err "TypeError: scope is undefined")
  | some scd =>
    match resolveFunction sc (some scd.name) st with
    | .error er => .error er
    | .ok funcInfo =>
      match checkExpression fuel value sc st with
      | .error er => .error er
      | .ok (et, st1) =>
        if et ≠ some "FunctionCall" ∧ et ≠ some funcInfo.returnType then
          .error (.err ("Return type mismatch: expected " ++
            funcInfo.returnType ++ " but got " ++ showT et))
        else if et = some "FunctionCall" then
          .ok (pushReturnCall value sc (some funcInfo.returnType) st1)
        else .ok st1

/-- checkCondition from semanticAnalysis.ts, applied to the condition
node: it must type to boolean or be a pending call. -/
def checkCondition (fuel : Nat) (cond : ASTNode) (sc : Nat) (st : AState) :
    Except AErr AState :=
  match checkExpression fuel cond sc st with
  | .error er => .error er
  | .ok (ct, st1) =>
    if ct ≠ some "boolean" ∧ ct ≠ some "FunctionCall" then
      .error (.err ("Condition must be boolean, got " ++ showT ct))
    else if ct = some "FunctionCall" then .ok (pushCall cond sc st1)
    else .ok st1

/-- checkControlFlowStatement from semanticAnalysis.ts. The source reads
contextStack[contextStack.length - 1]; with an empty stack that is JS
undefined and the following property read throws a TypeError, which is
modelled as the TypeError message. -/
def checkControlFlowStatement (flowType : String) (st : AState) :
    Except AErr AState :=
  if flowType = "break" then
    match st.contextStack.head? with
    | none =>
      .error (.err
        "TypeError: cannot read properties of undefined (reading inLoop)")
    | some ctx =>
      if ¬ctx.inLoop ∧ ¬ctx.inSwitch then
        .error (.err
          "Break statement can only be used inside a loop or switch statement.")
      else .ok st
  else if flowType = "continue" then
    match st.contextStack.head? with
    | none =>
      .error (.err
        "TypeError: cannot read properties of undefined (reading inLoop)")
    | some ctx =>
      if ¬ctx.inLoop then
        .error (.err "Continue statement can only be used inside a loop.")
      else .ok st
  else .ok st

mutual
/-- traverse from semanticAnalysis.ts: analyze each node of a body in
order. -/
def traverse : Nat → List ASTNode → Nat → AState → Except AErr AState
  | 0, _, _, _ => .error .fuel
  | fuel+1, body, sc, st =>
    match body with
    | [] => .ok st
    | n :: rest =>
      match analyzeNode fuel n sc st with
      | .error er => .error er
      | .ok st1 => traverse fuel rest sc st1

/-- analyzeNode from semanticAnalysis.ts: dispatch on node.type. An
expression variant in statement position falls to the default arm of the
source switch (Unknown AST node type). -/
def analyzeNode : Nat → ASTNode → Nat → AState → Except AErr AState
  | 0, _, _, _ => .error .fuel
  | fuel+1, n, sc, st =>
    match n with
    | .VariableDeclaration dt nm v => checkVariableDeclaration fuel dt nm v sc st
    | .FunctionDeclaration _ _ _ _ => checkFunctionDeclaration fuel n sc st
    | .ExpressionStatement e =>
      match checkExpression fuel e sc st with
      | .error er => .error er
      | .ok (et, st1) =>
        if et = some "FunctionCall" then .ok (pushCall e sc st1) else .ok st1
    | .ReturnStatement v => checkReturn fuel v sc st
    | .IfStatement _ _ _ _ => checkIfStatement fuel n sc st
    | .WhileLoop _ _ => checkWhileLoop fuel n sc st
    | .ForLoop _ _ _ _ => checkForLoop fuel n sc st
    | .ControlFlowStatement ft => checkControlFlowStatement ft st
    | other => .error (.err ("Unknown AST node type: " ++ typeTag other))

/-- checkFunctionDeclaration from semanticAnalysis.ts: create the
function scope, declare the parameters in it, register the signature in
the enclosing scope, then analyze the body in the function scope. -/
def checkFunctionDeclaration : Nat → ASTNode → Nat → AState →
    Except AErr AState
  | 0, _, _, _ => .error .fuel
  | fuel+1, node, sc, st =>
    match node with
    | .FunctionDeclaration rt nm ps body =>
      let (fsc, st1) := createScope (some sc) nm st
      match declParams fsc ps st1 with
      | .error er => .error er
      | .ok st2 =>
        match declareFunction sc nm
            { params := ps.map (fun p => (p.2, p.1)), returnType := rt } st2 with
        | .error er => .error er
        | .ok st3 => traverse fuel body fsc st3
    | _ => .error (.err "TypeError: not a FunctionDeclaration")

/-- checkIfStatement from semanticAnalysis.ts. The source guards the
else-if walk with node.elseIfs, a field the parser never sets (it emits
elseIf), so that guard is always falsy and checkElseIfs is never invoked;
the else guard node.else tests an array, which is always truthy. -/
def checkIfStatement : Nat → ASTNode → Nat → AState → Except AErr AState
  | 0, _, _, _ => .error .fuel
  | fuel+1, node, sc, st =>
    match node with
    | .IfStatement c b _ei els =>
      match checkCondition fuel c sc st with
      | .error er => .error er
      | .ok st1 =>
        match checkBody fuel b sc "if" st1 with
        | .error er => .error er
        | .ok st2 => checkBody fuel els sc "else" st2
    | _ => .error (.err "TypeError: not an IfStatement")

/-- checkWhileLoop from semanticAnalysis.ts: push a loop context frame,
check condition and body, pop the frame. -/
def checkWhileLoop : Nat → ASTNode → Nat → AState → Except AErr AState
  | 0, _, _, _ => .error .fuel
  | fuel+1, node, sc, st =>
    match node with
    | .WhileLoop c b =>
      let st0 := { st with contextStack := ⟨true, false⟩ :: st.contextStack }
      match checkCondition fuel c sc st0 with
      | .error er => .error er
      | .ok st1 =>
        match checkBody fuel b sc "while" st1 with
        | .error er => .error er
        | .ok st2 => .ok { st2 with contextStack := st2.contextStack.tail }
    | _ => .error (.err "TypeError: not a WhileLoop")

/-- checkForLoop from semanticAnalysis.ts: push a loop context frame; the
initializer must be a VariableDeclaration (checked in the enclosing
scope), the condition boolean or pending, the increment a ++ or --
UnaryExpression of numeric type; then the body, then pop the frame. -/
def checkForLoop : Nat → ASTNode → Nat → AState → Except AErr AState
  | 0, _, _, _ => .error .fuel
  | fuel+1, node, sc, st =>
    match node with
    | .ForLoop ini c inc b =>
      let st0 := { st with contextStack := ⟨true, false⟩ :: st.contextStack }
      match ini with
      | .VariableDeclaration dt nm v =>
        match checkVariableDeclaration fuel dt nm v sc st0 with
        | .error er => .error er
        | .ok st1 =>
          match checkCondition fuel c sc st1 with
          | .error er => .error er
          | .ok st2 =>
            match inc with
            | .UnaryExpression iop _ _ =>
              if iop ≠ "++" ∧ iop ≠ "--" then
                .error (.err ("For loop increment must be ++ or --, got " ++
                  iop))
              else
                match checkExpression fuel inc sc st2 with
                | .error er => .error er
                | .ok (it, st3) =>
                  if it ≠ some "int" ∧ it ≠ some "float" then
                    .error (.err ("For loop increment must be numeric, got "
                      ++ showT it))
                  else
                    match checkBody fuel b sc "for" st3 with
                    | .error er => .error er
                    | .ok st4 =>
                      .ok { st4 with contextStack := st4.contextStack.tail }
            | _ =>
              .error (.err
                ("For loop must have an increment or decrement (Unary Expression), got "
                  ++ typeTag inc))
      | _ =>
        .error (.err
          ("For loop initialization must be a variable declaration, got " ++
            typeTag ini))
    | _ => .error (.err "TypeError: not a ForLoop")

/-- checkBody from semanticAnalysis.ts: create a child scope with the
given name and traverse the statements in it. -/
def checkBody : Nat → List ASTNode → Nat → String → AState →
    Except AErr AState
  | 0, _, _, _, _ => .error .fuel
  | fuel+1, body, sc, name, st =>
    let (bsc, st1) := createScope (some sc) name st
    traverse fuel body bsc st1
end

/-- checkElseIfs from semanticAnalysis.ts: check each else-if condition
and body. Dead code in the source: its only call site is guarded by the
absent field node.elseIfs, so it never runs (claim C2). -/
def checkElseIfs (fuel : Nat) (clauses : List (ASTNode × List ASTNode))
    (sc : Nat) (st : AState) : Except AErr AState :=
  match clauses with
  | [] => .ok st
  | (cond, body) :: rest =>
    match checkCondition fuel cond sc st with
    | .error er => .error er
    | .ok st1 =>
      match checkBody fuel body sc "else if" st1 with
      | .error er => .error er
      | .ok st2 => checkElseIfs fuel rest sc st2

/-- Fuel given to pass 1: the recursion of the source is structural over
the tree (each hop moves to a child construct), so depth is generously
bounded by a small multiple of the program size. -/
def pass1Fuel (prog : List ASTNode) : Nat := 8 * szl prog + 8

/-- Pass 1 of analyze: create the global scope and traverse the program. -/
def pass1 (prog : List ASTNode) : Except AErr AState :=
  let st0 : AState := ⟨[], [], []⟩
  let (g, st1) := createScope none "global" st0
  traverse (pass1Fuel prog) prog g st1

/-! ## Pass 2: draining the pending-call stack -/

/-- Size contributed by a branch operand that is an AST node. -/
def bSize : BranchV → Nat
  | .nodeB n => sz n
  | _ => 0

/-- Measure of a pending call: the size of its node plus the size of a
node-valued branch operand. Every pending call the analyzer creates while
resolving an entry is strictly smaller in this measure. -/
def mm (c : UCall) : Nat := sz c.node + bSize c.branch

/-- checkVariableType from semanticAnalysis.ts: the declared type of the
assigned variable must equal the return type of the called function. -/
def checkVariableType (fi : FunctionInfo) (c : UCall) (st : AState) :
    Except AErr Unit :=
  match resolveVariable c.scope (c.assignToVar.getD "") st with
  | .error er => .error er
  | .ok vt =>
    if vt ≠ fi.returnType then
      .error (.err ("Variable " ++ c.assignToVar.getD "" ++
        " type mismatch: expected " ++ fi.returnType ++ " but got " ++ vt))
    else .ok ()

/-- checkReturnType from semanticAnalysis.ts: the expected return type
recorded on the pending call must equal the return type of the called
function. -/
def checkReturnType (fi : FunctionInfo) (c : UCall) : Except AErr Unit :=
  if c.returnType ≠ some fi.returnType then
    .error (.err ("Return type mismatch: expected " ++ fi.returnType ++
      " but got " ++ showT c.returnType))
  else .ok ()

/-- checkOperator from semanticAnalysis.ts: operator category rules for a
resolved branch (logical needs boolean on both sides, arithmetic needs
numeric on both sides, comparisons always pass, anything else is the
default arm). A missing operator field falls to the default arm too. -/
def checkOperator (fi : FunctionInfo) (op : Option String)
    (branchType : String) : Except AErr Unit :=
  match op with
  | some o =>
    if o = "&&" ∨ o = "||" then
      if branchType ≠ "boolean" ∨ fi.returnType ≠ "boolean" then
        .error (.err ("Logical operator " ++ o ++
          " requires boolean return type, got " ++ branchType))
      else .ok ()
    else if o ∈ ["+", "-", "*", "/", "^", "%"] then
      if (branchType ≠ "int" ∧ branchType ≠ "float") ∨
          (fi.returnType ≠ "int" ∧ fi.returnType ≠ "float") then
        .error (.err ("Arithmetic operator " ++ o ++
          " requires numeric return type, got " ++ branchType))
      else .ok ()
    else if o ∈ ["==", "!=", "<", ">", "<=", ">="] then .ok ()
    else .error (.err ("Unknown operator " ++ o ++ " in branch."))
  | none => .error (.err "Unknown operator undefined in branch.")

mutual
/-- resolveCalls from semanticAnalysis.ts, applied to the entry already
popped from the stack: resolve the called function, check the arguments,
then the assignToVar, returnType and branch obligations; returns the
return type of the resolved function. The source reads
call.node.arguments, which exists only on a FunctionCall node - for any
other node the read of its length throws a TypeError (reachable only if
resolveFunction found a function under the name of a non-call node). -/
def resolveEntry : Nat → UCall → AState → Except AErr (String × AState)
  | 0, _, _ => .error .fuel
  | fuel+1, c, st =>
    match resolveFunction c.scope (nameOf c.node) st with
    | .error er => .error er
    | .ok fi =>
      match c.node with
      | .FunctionCall fname args =>
        if fi.params.length ≠ args.length then
          .error (.err ("Function " ++ fname ++
            " called with incorrect number of arguments."))
        else
          match checkArgs fuel fname fi.params args 0 c.scope st with
          | .error er => .error er
          | .ok st1 =>
            match (if strTruthy c.assignToVar
                   then checkVariableType fi c st1 else .ok ()) with
            | .error er => .error er
            | .ok _ =>
              match (if strTruthy c.returnType
                     then checkReturnType fi c else .ok ()) with
              | .error er => .error er
              | .ok _ =>
                if branchTruthy c.branch then
                  match checkBranchFn fuel fi c st1 with
                  | .error er => .error er
                  | .ok st2 => .ok (fi.returnType, st2)
                else .ok (fi.returnType, st1)
      | _ =>
        .error (.err
          "TypeError: cannot read properties of undefined (reading length)")

/-- The argument loop of checkCallArguments from semanticAnalysis.ts:
type-check each argument; an argument that is itself an unresolved call is
pushed and immediately popped and resolved recursively (inlined here as a
direct recursive resolution of exactly that entry); the resulting type
must equal the parameter type. -/
def checkArgs : Nat → String → List (String × String) → List ASTNode →
    Nat → Nat → AState → Except AErr AState
  | 0, _, _, _, _, _, _ => .error .fuel
  | fuel+1, fname, params, args, pos, sc, st =>
    match params, args with
    | [], _ => .ok st
    | _ :: _, [] =>
      .error (.err ("Missing argument for function " ++ fname ++
        " at position " ++ toString pos ++ "."))
    | (pnm, pty) :: ps, a :: rest =>
      match checkExpression fuel a sc st with
      | .error er => .error er
      | .ok (at0, st1) =>
        if at0 = some "FunctionCall" then
          match resolveEntry fuel { node := a, scope := sc } st1 with
          | .error er => .error er
          | .ok (rt, st2) =>
            if rt ≠ pty then
              .error (.err ("Argument type mismatch for " ++ pnm ++
                ": expected " ++ pty ++ " but got " ++ rt ++ "."))
            else checkArgs fuel fname ps rest (pos+1) sc st2
        else
          if at0 ≠ some pty then
            .error (.err ("Argument type mismatch for " ++ pnm ++
              ": expected " ++ pty ++ " but got " ++ showT at0 ++ "."))
          else checkArgs fuel fname ps rest (pos+1) sc st1

/-- checkBranch from semanticAnalysis.ts: the recorded branch operand is
either a type string or an AST node (whose dynamic type field is read);
a branch node that is itself an unresolved call is pushed and immediately
popped and resolved recursively (inlined as a direct recursive
resolution), after which both sides must agree with the function return
type and satisfy the operator rule. -/
def checkBranchFn : Nat → FunctionInfo → UCall → AState →
    Except AErr AState
  | 0, _, _, _ => .error .fuel
  | fuel+1, fi, c, st =>
    let branchType := match c.branch with
      | .nodeB n => typeTag n
      | .typeB s => s
      | .nullB => "null"
      | .noB => "undefined"
    if branchType = "FunctionCall" then
      match c.branch with
      | .nodeB n =>
        match resolveEntry fuel { node := n, scope := c.scope } st with
        | .error er => .error er
        | .ok (bt, st1) =>
          if fi.returnType ≠ bt then
            .error (.err ("Branch type mismatch: expected " ++
              fi.returnType ++ " but got " ++ bt))
          else
            match checkOperator fi c.operator bt with
            | .error er => .error er
            | .ok _ => .ok st1
      | _ =>
        .error (.err
          "TypeError: branch string FunctionCall pushed as a call node")
    else
      if branchType ≠ fi.returnType then
        .error (.err ("Branch type mismatch: expected " ++ fi.returnType ++
          " but got " ++ branchType))
      else
        match checkOperator fi c.operator branchType with
        | .error er => .error er
        | .ok _ => .ok st
end

/-- Fuel given to one resolveCalls invocation; proved sufficient (no
.error .fuel) in the lemmas for claim C6. -/
def resolveFuel (c : UCall) : Nat := 4 * mm c + 6

/-- Weight of a pending call for the drain-termination potential. -/
def wcall (c : UCall) : Nat := 2 ^ mm c

/-- Total weight of a list of pending calls. -/
def wsum (l : List UCall) : Nat := (l.map wcall).sum

/-- The drain-termination potential of a state: total weight of its
pending-call stack. Strictly decreases at every drain step. -/
def phi (st : AState) : Nat := wsum st.callStack

/-- The pass-2 loop of analyze: while the call stack is not empty, pop the
most recent entry and resolve it. Fuel for the loop is proved sufficient
at phi of the state (claim C6). -/
def drainFuel : Nat → AState → Except AErr AState
  | fuel, st =>
    match st.callStack with
    | [] => .ok st
    | c :: rest =>
      match fuel with
      | 0 => .error .fuel
      | n+1 =>
        match resolveEntry (resolveFuel c) c { st with callStack := rest } with
        | .error er => .error er
        | .ok (_, st1) => drainFuel n st1

/-- analyze from semanticAnalysis.ts: pass 1 then the drain loop, with
drain fuel phi of the pass-1 state (proved sufficient in claim C6, so the
drain phase equals the unbounded source loop). -/
def analyze (prog : List ASTNode) : Except AErr Bool :=
  match pass1 prog with
  | .error er => .error er
  | .ok st =>
    match drainFuel (phi st) st with
    | .error er => .error er
    | .ok _ => .ok true

/-! ## Concrete fixture programs and observers used by the claims -/

/-- A state holding just the global scope, as at the start of pass 1. -/
def oneScopeState : AState := ⟨[⟨none, "global", [], []⟩], [], []⟩

/-- int function f() { return 1; } - the return sits directly in the body
scope of f. -/
def progReturnDirect : List ASTNode :=
  [.FunctionDeclaration "int" "f" [] [.ReturnStatement (.Literal "int" "1")]]

/-- int function f() { if (true) { return 1; } } - the well-typed return
sits inside an if block of the body of f. -/
def progReturnNested : List ASTNode :=
  [.FunctionDeclaration "int" "f" []
    [.IfStatement (.Literal "boolean" "true")
      [.ReturnStatement (.Literal "int" "1")] [] []]]

/-- if (true) { } else if (1) { nope; } - the else-if condition is an int
literal and its body references an undeclared name; parser.ts stores the
clause under the field elseIf. -/
def progBadElseIf : List ASTNode :=
  [.IfStatement (.Literal "boolean" "true") []
    [(.Literal "int" "1", [.ExpressionStatement (.Identifier "nope")])] []]

/-- break; at global scope. -/
def progBreakGlobal : List ASTNode := [.ControlFlowStatement "break"]

/-- while (true) { break; } -/
def progBreakInWhile : List ASTNode :=
  [.WhileLoop (.Literal "boolean" "true") [.ControlFlowStatement "break"]]

/-- for (int i = 0; true; i++) { continue; } -/
def progContinueInFor : List ASTNode :=
  [.ForLoop (.VariableDeclaration "int" "i" (.Literal "int" "0"))
    (.Literal "boolean" "true")
    (.UnaryExpression "++" (.Identifier "i") false)
    [.ControlFlowStatement "continue"]]

/-- while (true) { if (true) { continue; } } -/
def progContinueInIfInWhile : List ASTNode :=
  [.WhileLoop (.Literal "boolean" "true")
    [.IfStatement (.Literal "boolean" "true")
      [.ControlFlowStatement "continue"] [] []]]

/-- int function f() { return g(); } int function g() { return 1; } -
f calls g, declared only later in the file. -/
def progForwardRef : List ASTNode :=
  [.FunctionDeclaration "int" "f" [] [.ReturnStatement (.FunctionCall "g" [])],
   .FunctionDeclaration "int" "g" [] [.ReturnStatement (.Literal "int" "1")]]

/-- Token sequence for 1 + 2 * 3. -/
def toksPrecedence : List Token :=
  [⟨"1", "int", 1, 1⟩, ⟨"+", "operator", 1, 3⟩, ⟨"2", "int", 1, 5⟩,
   ⟨"*", "operator", 1, 7⟩, ⟨"3", "int", 1, 9⟩]

/-- Token sequence for 2 ^ 3 ^ 4. -/
def toksCaret : List Token :=
  [⟨"2", "int", 1, 1⟩, ⟨"^", "operator", 1, 3⟩, ⟨"3", "int", 1, 5⟩,
   ⟨"^", "operator", 1, 7⟩, ⟨"4", "int", 1, 9⟩]

/-- int function f(int a, int b) { return 1; } plus g and h returning int,
then int x = f(1 + g(), 2 + h()); - both arguments of the pending call to
f contain further calls inside binary expressions. -/
def progTwoPendingArgs : List ASTNode :=
  [.FunctionDeclaration "int" "f" [("int", "a"), ("int", "b")]
     [.ReturnStatement (.Literal "int" "1")],
   .FunctionDeclaration "int" "g" [] [.ReturnStatement (.Literal "int" "1")],
   .FunctionDeclaration "int" "h" [] [.ReturnStatement (.Literal "int" "1")],
   .VariableDeclaration "int" "x"
     (.FunctionCall "f"
       [.BinaryExpression "+" (.Literal "int" "1") (.FunctionCall "g" []),
        .BinaryExpression "+" (.Literal "int" "2") (.FunctionCall "h" [])])]

/-- Number of pending calls right after pass 1. -/
def stackLenAfterPass1 (prog : List ASTNode) : Except AErr Nat :=
  match pass1 prog with
  | .error er => .error er
  | .ok st => .ok st.callStack.length

/-- Number of pending calls after the first drain step of pass 2 (pop the
most recent entry and resolve it). -/
def stackLenAfterFirstResolve (prog : List ASTNode) : Except AErr Nat :=
  match pass1 prog with
  | .error er => .error er
  | .ok st =>
    match st.callStack with
    | [] => .error (.err "empty stack")
    | c :: rest =>
      match resolveEntry (resolveFuel c) c { st with callStack := rest } with
      | .error er => .error er
      | .ok (_, st1) => .ok st1.callStack.length

/-- int x = 1; int x = 1; - twice in the same scope. -/
def progRedecl : List ASTNode :=
  [.VariableDeclaration "int" "x" (.Literal "int" "1"),
   .VariableDeclaration "int" "x" (.Literal "int" "1")]

/-- int x = 1; if (true) { int x = 1; } - the second declaration shadows
in a child scope. -/
def progShadow : List ASTNode :=
  [.VariableDeclaration "int" "x" (.Literal "int" "1"),
   .IfStatement (.Literal "boolean" "true")
     [.VariableDeclaration "int" "x" (.Literal "int" "1")] [] []]

/-- while (true) { void function f() { break; } } - a break directly in
the body of a function that is declared inside a while body. -/
def progBreakInFnInWhile : List ASTNode :=
  [.WhileLoop (.Literal "boolean" "true")
    [.FunctionDeclaration "void" "f" [] [.ControlFlowStatement "break"]]]

/-- void function f() { break; } at global scope - the same function with
no enclosing loop. -/
def progBreakInFnAtGlobal : List ASTNode :=
  [.FunctionDeclaration "void" "f" [] [.ControlFlowStatement "break"]]

/-- The scope arena after pass 1 on progTwoPendingArgs: the global scope
holding x and the signatures of f, g, h, plus the three function scopes. -/
def arenaTwoPending : List ScopeData :=
  [⟨none, "global", [("x", "int")],
    [("f", ⟨[("a", "int"), ("b", "int")], "int"⟩),
     ("g", ⟨[], "int"⟩), ("h", ⟨[], "int"⟩)]⟩,
   ⟨some 0, "f", [("a", "int"), ("b", "int")], []⟩,
   ⟨some 0, "g", [], []⟩,
   ⟨some 0, "h", [], []⟩]

/-- The pending entry for f(1 + g(), 2 + h()) assigned to x. -/
def entryF : UCall :=
  { node := .FunctionCall "f"
      [.BinaryExpression "+" (.Literal "int" "1") (.FunctionCall "g" []),
       .BinaryExpression "+" (.Literal "int" "2") (.FunctionCall "h" [])],
    scope := 0, assignToVar := some "x" }

/-- The pending branch entry for g() inside 1 + g(). -/
def entryG : UCall :=
  { node := .FunctionCall "g" [], scope := 0,
    branch := .typeB "int", operator := some "+" }

/-- The pending branch entry for h() inside 2 + h(). -/
def entryH : UCall :=
  { node := .FunctionCall "h" [], scope := 0,
    branch := .typeB "int", operator := some "+" }

/-- State after pass 1 on progTwoPendingArgs: one pending entry. -/
def stTP1 : AState := ⟨arenaTwoPending, [entryF], []⟩

/-- State after draining the entry for f: the entries for h and g found
inside the argument expressions remain. -/
def stTP2 : AState := ⟨arenaTwoPending, [entryH, entryG], []⟩

/-- State after draining the entry for h. -/
def stTP3 : AState := ⟨arenaTwoPending, [entryG], []⟩

/-- State after draining the entry for g: the stack is empty. -/
def stTP4 : AState := ⟨arenaTwoPending, [], []⟩

/- Fuel-recursive definitions compiled as sealed are unsealed so that
concrete runs reduce definitionally. -/
unseal parseExpression parseLoop parseArgs
unseal traverse analyzeNode checkFunctionDeclaration checkIfStatement
unseal checkWhileLoop checkForLoop checkBody

set_option maxRecDepth 8000

/-! ## Termination of the drain loop (claim C6): helper lemmas -/

theorem wsum_nil : wsum [] = 0 := rfl

theorem wsum_cons (c : UCall) (l : List UCall) :
    wsum (c :: l) = wcall c + wsum l := by
  simp [wsum]

theorem wsum_append (l1 l2 : List UCall) :
    wsum (l1 ++ l2) = wsum l1 + wsum l2 := by
  simp [wsum]

theorem wcall_pos (c : UCall) : 0 < wcall c :=
  pow_pos (by norm_num) _

theorem two_pow_add_le (a b : Nat) (ha : 1 ≤ a) (hb : 1 ≤ b) :
    2 ^ a + 2 ^ b ≤ 2 ^ (a + b) := by
  have h2a : 2 ≤ 2 ^ a := by
    calc 2 = 2 ^ 1 := rfl
    _ ≤ 2 ^ a := Nat.pow_le_pow_right (by norm_num) ha
  have h2b : 2 ≤ 2 ^ b := by
    calc 2 = 2 ^ 1 := rfl
    _ ≤ 2 ^ b := Nat.pow_le_pow_right (by norm_num) hb
  calc 2 ^ a + 2 ^ b ≤ 2 ^ a * 2 ^ b := Nat.add_le_mul h2a h2b
  _ = 2 ^ (a + b) := (pow_add 2 a b).symm

theorem lt_pow_add_one (x y a b : Nat) (hx : x < 2 ^ a) (hy : y < 2 ^ b) :
    x + y < 2 ^ (1 + a + b) := by
  have h1 : 2 ^ a ≤ 2 ^ (a + b) := Nat.pow_le_pow_right (by norm_num) (by omega)
  have h2 : 2 ^ b ≤ 2 ^ (a + b) := Nat.pow_le_pow_right (by norm_num) (by omega)
  have h3 : 2 ^ (1 + a + b) = 2 ^ (a + b) * 2 := by
    rw [← pow_succ]
    congr 1
    omega
  omega

theorem args_step_bound (x y z za zr : Nat) (hx : x < 2 ^ za)
    (hy : y < 2 ^ za) (hz : z < 2 ^ zr) : x + y + z < 2 ^ (1 + za + zr) := by
  have e1 : 2 ^ (za + 1) = 2 ^ za * 2 := pow_succ 2 za
  rcases Nat.eq_zero_or_pos zr with h0 | hpos
  · subst h0
    have e2 : 2 ^ (1 + za + 0) = 2 ^ za * 2 := by
      rw [← pow_succ]
      congr 1
      omega
    omega
  · have h := two_pow_add_le (za + 1) zr (by omega) hpos
    have e2 : 2 ^ (za + 1 + zr) = 2 ^ (1 + za + zr) := by
      congr 1
      omega
    omega

/-! ## L1: stack extension of checkExpression -/

theorem checkExpression_stack : ∀ fuel : Nat,
    (∀ e sc st t st', checkExpression fuel e sc st = .ok (t, st') →
      ∃ new, st'.callStack = new ++ st.callStack ∧ wsum new < 2 ^ sz e) ∧
    (∀ e sc st t st', checkBinaryExpression fuel e sc st = .ok (t, st') →
      ∃ new, st'.callStack = new ++ st.callStack ∧ wsum new < 2 ^ sz e) := by
  intro fuel
  induction fuel with
  | zero =>
    constructor
    · intro e sc st t st' h
      simp [checkExpression] at h
    · intro e sc st t st' h
      simp [checkBinaryExpression] at h
  | succ fuel ih =>
    obtain ⟨ihE, ihB⟩ := ih
    constructor
    · intro e sc st t st' h
      cases e with
      | Literal dt nm =>
        simp only [checkExpression] at h
        cases h
        exact ⟨[], by simp, pow_pos (by norm_num) _⟩
      | Identifier nm =>
        simp only [checkExpression] at h
        split at h
        · exact absurd h (by simp)
        · cases h
          exact ⟨[], by simp, pow_pos (by norm_num) _⟩
      | AssignmentExpression left right =>
        cases left with
        | Identifier lname =>
          simp only [checkExpression] at h
          split at h
          · exact absurd h (by simp)
          · rename_i rt st1 heq
            obtain ⟨nr, hsr, hwr⟩ := ihE right sc st rt st1 heq
            split at h
            · -- rt is the call sentinel: pushVarCall
              cases h
              refine ⟨⟨right, sc, some lname, none, .noB, none⟩ :: nr, ?_, ?_⟩
              · simp [pushVarCall, hsr]
              · rw [wsum_cons]
                have hw : wcall ⟨right, sc, some lname, none, .noB, none⟩ =
                    2 ^ sz right := by
                  simp [wcall, mm, bSize]
                have hmono : 2 ^ (sz right + 1) ≤
                    2 ^ sz (ASTNode.AssignmentExpression
                      (.Identifier lname) right) := by
                  apply Nat.pow_le_pow_right (by norm_num)
                  simp [sz]
                  omega
                have hp : 2 ^ (sz right + 1) = 2 ^ sz right * 2 :=
                  pow_succ 2 (sz right)
                omega
            · split at h
              · exact absurd h (by simp)
              · split at h
                · exact absurd h (by simp)
                · cases h
                  refine ⟨nr, hsr, ?_⟩
                  refine lt_of_lt_of_le hwr (Nat.pow_le_pow_right (by norm_num) ?_)
                  simp [sz]
        | Literal a b => simp [checkExpression] at h
        | AssignmentExpression a b => simp [checkExpression] at h
        | BinaryExpression a b c => simp [checkExpression] at h
        | UnaryExpression a b c => simp [checkExpression] at h
        | FunctionCall a b => simp [checkExpression] at h
        | ExpressionStatement a => simp [checkExpression] at h
        | VariableDeclaration a b c => simp [checkExpression] at h
        | FunctionDeclaration a b c d => simp [checkExpression] at h
        | ReturnStatement a => simp [checkExpression] at h
        | IfStatement a b c d => simp [checkExpression] at h
        | WhileLoop a b => simp [checkExpression] at h
        | ForLoop a b c d => simp [checkExpression] at h
        | ControlFlowStatement a => simp [checkExpression] at h
      | BinaryExpression op l r =>
        simp only [checkExpression] at h
        exact ihB _ sc st t st' h
      | UnaryExpression op a pfx =>
        simp only [checkExpression] at h
        obtain ⟨new, hs, hw⟩ := ihE a sc st t st' h
        refine ⟨new, hs, lt_of_lt_of_le hw (Nat.pow_le_pow_right (by norm_num) ?_)⟩
        simp [sz]
      | FunctionCall nm args =>
        simp only [checkExpression] at h
        cases h
        exact ⟨[], by simp, pow_pos (by norm_num) _⟩
      | ExpressionStatement e1 =>
        simp [checkExpression, typeTag] at h
      | VariableDeclaration a b c =>
        simp [checkExpression, typeTag] at h
      | FunctionDeclaration a b c d =>
        simp [checkExpression, typeTag] at h
      | ReturnStatement v =>
        simp [checkExpression, typeTag] at h
      | IfStatement a b c d =>
        simp [checkExpression, typeTag] at h
      | WhileLoop a b =>
        simp [checkExpression, typeTag] at h
      | ForLoop a b c d =>
        simp [checkExpression, typeTag] at h
      | ControlFlowStatement ft =>
        simp [checkExpression, typeTag] at h
    · intro e sc st t st' h
      cases e with
      | BinaryExpression op l r =>
        simp only [checkBinaryExpression] at h
        split at h
        · exact absurd h (by simp)
        · rename_i lt st1 heql
          split at h
          · exact absurd h (by simp)
          · rename_i rt st2 heqr
            obtain ⟨nl, hsl, hwl⟩ := ihE l sc st lt st1 heql
            obtain ⟨nr, hsr, hwr⟩ := ihE r sc st1 rt st2 heqr
            have ha := sz_pos l
            have hb := sz_pos r
            have hsz : sz (ASTNode.BinaryExpression op l r) =
                1 + sz l + sz r := by simp [sz]
            by_cases hc1 : lt = some "FunctionCall" ∧ rt = some "FunctionCall"
            · rw [if_pos hc1] at h
              have hX : ∃ new,
                  (pushBranchCall l sc (.nodeB r) (some op) st2).callStack =
                    new ++ st.callStack ∧
                  wsum new < 2 ^ sz (ASTNode.BinaryExpression op l r) := by
                refine ⟨⟨l, sc, none, none, .nodeB r, some op⟩ :: (nr ++ nl),
                  ?_, ?_⟩
                · simp [pushBranchCall, hsr, hsl]
                · rw [wsum_cons, wsum_append, hsz]
                  have hw : wcall ⟨l, sc, none, none, .nodeB r, some op⟩ =
                      2 ^ (sz l + sz r) := by
                    simp [wcall, mm, bSize]
                  have hle := two_pow_add_le (sz l) (sz r) ha hb
                  have hp : 2 ^ (1 + sz l + sz r) = 2 ^ (sz l + sz r) * 2 := by
                    rw [← pow_succ]
                    congr 1
                    omega
                  omega
              repeat' split at h
              all_goals try exact Except.noConfusion h
              all_goals
                injection h with h1
                rw [Prod.mk.injEq] at h1
                obtain ⟨h2, h3⟩ := h1
                subst h3
                exact hX
            · rw [if_neg hc1] at h
              by_cases hc2 : rt = some "FunctionCall"
              · rw [if_pos hc2] at h
                have hX : ∃ new,
                    (pushBranchCall r sc (toBranch lt) (some op) st2).callStack =
                      new ++ st.callStack ∧
                    wsum new < 2 ^ sz (ASTNode.BinaryExpression op l r) := by
                  refine ⟨⟨r, sc, none, none, toBranch lt, some op⟩ ::
                    (nr ++ nl), ?_, ?_⟩
                  · simp [pushBranchCall, hsr, hsl]
                  · rw [wsum_cons, wsum_append, hsz]
                    have hw : wcall ⟨r, sc, none, none, toBranch lt, some op⟩ =
                        2 ^ sz r := by
                      cases lt with
                      | none => simp [wcall, mm, bSize, toBranch]
                      | some s => simp [wcall, mm, bSize, toBranch]
                    have hle := two_pow_add_le (sz r + 1) (sz l) (by omega) ha
                    have hp1 : 2 ^ (sz r + 1) = 2 ^ sz r * 2 :=
                      pow_succ 2 (sz r)
                    have hp2 : 2 ^ (sz r + 1 + sz l) =
                        2 ^ (1 + sz l + sz r) := by
                      congr 1
                      omega
                    omega
                repeat' split at h
                all_goals try exact Except.noConfusion h
                all_goals
                  injection h with h1
                  rw [Prod.mk.injEq] at h1
                  obtain ⟨h2, h3⟩ := h1
                  subst h3
                  exact hX
              · rw [if_neg hc2] at h
                by_cases hc3 : lt = some "FunctionCall"
                · rw [if_pos hc3] at h
                  have hX : ∃ new,
                      (pushBranchCall l sc (toBranch rt) (some op) st2).callStack =
                        new ++ st.callStack ∧
                      wsum new < 2 ^ sz (ASTNode.BinaryExpression op l r) := by
                    refine ⟨⟨l, sc, none, none, toBranch rt, some op⟩ ::
                      (nr ++ nl), ?_, ?_⟩
                    · simp [pushBranchCall, hsr, hsl]
                    · rw [wsum_cons, wsum_append, hsz]
                      have hw : wcall ⟨l, sc, none, none, toBranch rt, some op⟩ =
                          2 ^ sz l := by
                        cases rt with
                        | none => simp [wcall, mm, bSize, toBranch]
                        | some s => simp [wcall, mm, bSize, toBranch]
                      have hle := two_pow_add_le (sz l + 1) (sz r) (by omega) hb
                      have hp1 : 2 ^ (sz l + 1) = 2 ^ sz l * 2 :=
                        pow_succ 2 (sz l)
                      have hp2 : 2 ^ (sz l + 1 + sz r) =
                          2 ^ (1 + sz l + sz r) := by
                        congr 1
                        omega
                      omega
                  repeat' split at h
                  all_goals try exact Except.noConfusion h
                  all_goals
                    injection h with h1
                    rw [Prod.mk.injEq] at h1
                    obtain ⟨h2, h3⟩ := h1
                    subst h3
                    exact hX
                · rw [if_neg hc3] at h
                  have hX : ∃ new, st2.callStack = new ++ st.callStack ∧
                      wsum new < 2 ^ sz (ASTNode.BinaryExpression op l r) := by
                    refine ⟨nr ++ nl, by simp [hsr, hsl], ?_⟩
                    rw [wsum_append, hsz]
                    have := lt_pow_add_one (wsum nl) (wsum nr)
                      (sz l) (sz r) hwl hwr
                    have hp2 : 2 ^ (1 + sz l + sz r) =
                        2 ^ (1 + sz l + sz r) := rfl
                    omega
                  repeat' split at h
                  all_goals try exact Except.noConfusion h
                  all_goals
                    injection h with h1
                    rw [Prod.mk.injEq] at h1
                    obtain ⟨h2, h3⟩ := h1
                    subst h3
                    exact hX
      | Literal a b => simp [checkBinaryExpression] at h
      | Identifier a => simp [checkBinaryExpression] at h
      | AssignmentExpression a b => simp [checkBinaryExpression] at h
      | UnaryExpression a b c => simp [checkBinaryExpression] at h
      | FunctionCall a b => simp [checkBinaryExpression] at h
      | ExpressionStatement a => simp [checkBinaryExpression] at h
      | VariableDeclaration a b c => simp [checkBinaryExpression] at h
      | FunctionDeclaration a b c d => simp [checkBinaryExpression] at h
      | ReturnStatement a => simp [checkBinaryExpression] at h
      | IfStatement a b c d => simp [checkBinaryExpression] at h
      | WhileLoop a b => simp [checkBinaryExpression] at h
      | ForLoop a b c d => simp [checkBinaryExpression] at h
      | ControlFlowStatement a => simp [checkBinaryExpression] at h

/-! ## Fuel sufficiency of checkExpression -/

theorem resolveVariable_not_fuel (i : Nat) (name : String) (st : AState) :
    resolveVariable i name st ≠ .error .fuel := by
  simp only [resolveVariable]
  split <;> simp

theorem resolveFunction_not_fuel (i : Nat) (name : Option String)
    (st : AState) : resolveFunction i name st ≠ .error .fuel := by
  simp only [resolveFunction]
  split <;> simp

theorem checkExpression_fuel : ∀ fuel : Nat,
    (∀ e sc st, 2 * sz e ≤ fuel → checkExpression fuel e sc st ≠ .error .fuel) ∧
    (∀ op l r sc st, 2 * (sz l + sz r) + 1 ≤ fuel →
      checkBinaryExpression fuel (.BinaryExpression op l r) sc st ≠
        .error .fuel) := by
  intro fuel
  induction fuel with
  | zero =>
    constructor
    · intro e sc st hf
      have := sz_pos e
      omega
    · intro op l r sc st hf
      omega
  | succ fuel ih =>
    obtain ⟨ihE, ihB⟩ := ih
    constructor
    · intro e sc st hf h
      cases e with
      | Literal dt nm => simp [checkExpression] at h
      | Identifier nm =>
        simp only [checkExpression] at h
        split at h
        · rename_i er heq
          injection h with h1
          subst h1
          exact resolveVariable_not_fuel _ _ _ heq
        · exact Except.noConfusion h
      | AssignmentExpression left right =>
        cases left with
        | Identifier lname =>
          simp only [checkExpression] at h
          simp only [sz] at hf
          split at h
          · rename_i er heq
            injection h with h1
            subst h1
            exact ihE right sc st (by omega) heq
          · rename_i rt st1 heq
            split at h
            · exact Except.noConfusion h
            · split at h
              · rename_i er heq2
                injection h with h1
                subst h1
                exact resolveVariable_not_fuel _ _ _ heq2
              · split at h
                · injection h with h1
                  exact AErr.noConfusion h1
                · exact Except.noConfusion h
        | Literal a b => simp [checkExpression] at h
        | AssignmentExpression a b => simp [checkExpression] at h
        | BinaryExpression a b c => simp [checkExpression] at h
        | UnaryExpression a b c => simp [checkExpression] at h
        | FunctionCall a b => simp [checkExpression] at h
        | ExpressionStatement a => simp [checkExpression] at h
        | VariableDeclaration a b c => simp [checkExpression] at h
        | FunctionDeclaration a b c d => simp [checkExpression] at h
        | ReturnStatement a => simp [checkExpression] at h
        | IfStatement a b c d => simp [checkExpression] at h
        | WhileLoop a b => simp [checkExpression] at h
        | ForLoop a b c d => simp [checkExpression] at h
        | ControlFlowStatement a => simp [checkExpression] at h
      | BinaryExpression op l r =>
        simp only [checkExpression] at h
        simp only [sz] at hf
        exact ihB op l r sc st (by omega) h
      | UnaryExpression op a pfx =>
        simp only [checkExpression] at h
        simp only [sz] at hf
        exact ihE a sc st (by omega) h
      | FunctionCall nm args => simp [checkExpression] at h
      | ExpressionStatement a => simp [checkExpression] at h
      | VariableDeclaration a b c => simp [checkExpression] at h
      | FunctionDeclaration a b c d => simp [checkExpression] at h
      | ReturnStatement a => simp [checkExpression] at h
      | IfStatement a b c d => simp [checkExpression] at h
      | WhileLoop a b => simp [checkExpression] at h
      | ForLoop a b c d => simp [checkExpression] at h
      | ControlFlowStatement a => simp [checkExpression] at h
    · intro op l r sc st hf h
      simp only [checkBinaryExpression] at h
      split at h
      · rename_i er heq
        injection h with h1
        subst h1
        exact ihE l sc st (by have := sz_pos r; omega) heq
      · rename_i lt st1 heq1
        split at h
        · rename_i er heq
          injection h with h1
          subst h1
          exact ihE r sc st1 (by have := sz_pos l; omega) heq
        · rename_i rt st2 heq2
          repeat' split at h
          all_goals first
            | exact Except.noConfusion h
            | (injection h with h1; exact AErr.noConfusion h1)

/-! ## Pass-2 leaf checkers never signal fuel exhaustion -/

theorem checkVariableType_not_fuel (fi : FunctionInfo) (c : UCall)
    (st : AState) : checkVariableType fi c st ≠ .error .fuel := by
  intro h
  simp only [checkVariableType] at h
  split at h
  · rename_i er heq
    injection h with h1
    subst h1
    exact resolveVariable_not_fuel _ _ _ heq
  · split at h
    · injection h with h1
      exact AErr.noConfusion h1
    · exact Except.noConfusion h

theorem checkReturnType_not_fuel (fi : FunctionInfo) (c : UCall) :
    checkReturnType fi c ≠ .error .fuel := by
  intro h
  simp only [checkReturnType] at h
  split at h
  · injection h with h1
    exact AErr.noConfusion h1
  · exact Except.noConfusion h

theorem checkOperator_not_fuel (fi : FunctionInfo) (op : Option String)
    (bt : String) : checkOperator fi op bt ≠ .error .fuel := by
  intro h
  simp only [checkOperator] at h
  repeat' split at h
  all_goals first
    | exact Except.noConfusion h
    | (injection h with h1; exact AErr.noConfusion h1)

/-! ## L2: stack extension of the resolveCalls machinery -/

theorem pass2_stack : ∀ fuel : Nat,
    (∀ c st t st', resolveEntry fuel c st = .ok (t, st') →
      ∃ new, st'.callStack = new ++ st.callStack ∧ wsum new < 2 ^ mm c) ∧
    (∀ fname params args pos sc st st',
      checkArgs fuel fname params args pos sc st = .ok st' →
      ∃ new, st'.callStack = new ++ st.callStack ∧ wsum new < 2 ^ szl args) ∧
    (∀ fi c st st', checkBranchFn fuel fi c st = .ok st' →
      ∃ new, st'.callStack = new ++ st.callStack ∧
        wsum new < 2 ^ bSize c.branch) := by
  intro fuel
  induction fuel with
  | zero =>
    refine ⟨?_, ?_, ?_⟩
    · intro c st t st' h
      simp [resolveEntry] at h
    · intro fname params args pos sc st st' h
      simp [checkArgs] at h
    · intro fi c st st' h
      simp [checkBranchFn] at h
  | succ fuel ih =>
    obtain ⟨ihR, ihA, ihB⟩ := ih
    refine ⟨?_, ?_, ?_⟩
    · -- resolveEntry
      intro c st t st' h
      simp only [resolveEntry] at h
      split at h
      · exact Except.noConfusion h
      · rename_i fi heqf
        split at h
        · rename_i fname args heqn
          have hm : mm c = 1 + szl args + bSize c.branch := by
            simp [mm, heqn, sz]
          split at h
          · exact Except.noConfusion h
          · split at h
            · exact Except.noConfusion h
            · rename_i st1 heqa
              obtain ⟨na, hsa, hwa⟩ := ihA _ _ _ _ _ _ _ heqa
              split at h
              · exact Except.noConfusion h
              · split at h
                · exact Except.noConfusion h
                · split at h
                  · -- branch is truthy: checkBranchFn runs
                    split at h
                    · exact Except.noConfusion h
                    · rename_i st2 heqb
                      obtain ⟨nb, hsb, hwb⟩ := ihB _ _ _ _ heqb
                      injection h with h1
                      rw [Prod.mk.injEq] at h1
                      obtain ⟨h2, h3⟩ := h1
                      subst h3
                      refine ⟨nb ++ na, by simp [hsb, hsa], ?_⟩
                      rw [wsum_append, hm]
                      have := lt_pow_add_one (wsum na) (wsum nb)
                        (szl args) (bSize c.branch) hwa hwb
                      omega
                  · -- branch not truthy
                    injection h with h1
                    rw [Prod.mk.injEq] at h1
                    obtain ⟨h2, h3⟩ := h1
                    subst h3
                    refine ⟨na, hsa, ?_⟩
                    refine lt_of_lt_of_le hwa
                      (Nat.pow_le_pow_right (by norm_num) ?_)
                    omega
        · exact Except.noConfusion h
    · -- checkArgs
      intro fname params args pos sc st st' h
      simp only [checkArgs] at h
      split at h
      · injection h with h1
        subst h1
        exact ⟨[], by simp, pow_pos (by norm_num) _⟩
      · exact Except.noConfusion h
      · rename_i pnm pty ps a rest
        have hsz : szl (a :: rest) = 1 + sz a + szl rest := by simp [szl]
        split at h
        · exact Except.noConfusion h
        · rename_i at0 st1 heqe
          obtain ⟨ne, hse, hwe⟩ :=
            ((checkExpression_stack fuel).1) a sc st at0 st1 heqe
          split at h
          · -- argument is a pending call: recursive resolveEntry
            split at h
            · exact Except.noConfusion h
            · rename_i rt st2 heqr
              obtain ⟨nr2, hsr2, hwr2⟩ := ihR _ _ _ _ heqr
              have hmm : mm ⟨a, sc, none, none, .noB, none⟩ = sz a := by
                simp [mm, bSize]
              rw [hmm] at hwr2
              split at h
              · exact Except.noConfusion h
              · obtain ⟨nt, hst, hwt⟩ := ihA _ _ _ _ _ _ _ h
                refine ⟨nt ++ nr2 ++ ne, by simp [hst, hsr2, hse], ?_⟩
                rw [wsum_append, wsum_append, hsz]
                have := args_step_bound (wsum ne) (wsum nr2) (wsum nt)
                  (sz a) (szl rest) hwe hwr2 hwt
                omega
          · split at h
            · exact Except.noConfusion h
            · obtain ⟨nt, hst, hwt⟩ := ihA _ _ _ _ _ _ _ h
              refine ⟨nt ++ ne, by simp [hst, hse], ?_⟩
              rw [wsum_append, hsz]
              have := lt_pow_add_one (wsum ne) (wsum nt)
                (sz a) (szl rest) hwe hwt
              omega
    · -- checkBranchFn
      intro fi c st st' h
      simp only [checkBranchFn] at h
      split at h
      · -- branchType is the call sentinel
        split at h
        · rename_i n heqb
          have hb : bSize c.branch = sz n := by
            rw [heqb]
            simp [bSize]
          split at h
          · exact Except.noConfusion h
          · rename_i bt st1 heqr
            obtain ⟨nbr, hsbr, hwbr⟩ := ihR _ _ _ _ heqr
            have hmm : mm ⟨n, c.scope, none, none, .noB, none⟩ = sz n := by
              simp [mm, bSize]
            rw [hmm] at hwbr
            split at h
            · exact Except.noConfusion h
            · split at h
              · exact Except.noConfusion h
              · injection h with h1
                subst h1
                rw [hb]
                exact ⟨nbr, hsbr, hwbr⟩
        · exact Except.noConfusion h
      · split at h
        · exact Except.noConfusion h
        · split at h
          · exact Except.noConfusion h
          · injection h with h1
            subst h1
            exact ⟨[], by simp, pow_pos (by norm_num) _⟩

/-! ## SA: resolveFuel is always enough fuel for the pass-2 machinery -/

theorem pass2_fuel : ∀ fuel : Nat,
    (∀ c st, 4 * mm c + 6 ≤ fuel → resolveEntry fuel c st ≠ .error .fuel) ∧
    (∀ fname params args pos sc st, 4 * szl args + 4 ≤ fuel →
      checkArgs fuel fname params args pos sc st ≠ .error .fuel) ∧
    (∀ fi c st, 4 * bSize c.branch + 8 ≤ fuel →
      checkBranchFn fuel fi c st ≠ .error .fuel) := by
  intro fuel
  induction fuel with
  | zero =>
    refine ⟨?_, ?_, ?_⟩
    · intro c st hf
      omega
    · intro fname params args pos sc st hf
      omega
    · intro fi c st hf
      omega
  | succ fuel ih =>
    obtain ⟨ihR, ihA, ihB⟩ := ih
    refine ⟨?_, ?_, ?_⟩
    · -- resolveEntry
      intro c st hf h
      simp only [resolveEntry] at h
      split at h
      · rename_i er heqf
        injection h with h1
        subst h1
        exact resolveFunction_not_fuel _ _ _ heqf
      · rename_i fi heqf
        split at h
        · rename_i fname args heqn
          have hm : mm c = 1 + szl args + bSize c.branch := by
            simp [mm, heqn, sz]
          split at h
          · injection h with h1
            exact AErr.noConfusion h1
          · split at h
            · rename_i er heqa
              injection h with h1
              subst h1
              exact ihA _ _ _ _ _ _ (by omega) heqa
            · rename_i st1 heqa
              split at h
              · rename_i er heqv
                injection h with h1
                subst h1
                split at heqv
                · exact checkVariableType_not_fuel _ _ _ heqv
                · exact Except.noConfusion heqv
              · split at h
                · rename_i er heqr
                  injection h with h1
                  subst h1
                  split at heqr
                  · exact checkReturnType_not_fuel _ _ heqr
                  · exact Except.noConfusion heqr
                · split at h
                  · split at h
                    · rename_i er heqb
                      injection h with h1
                      subst h1
                      exact ihB _ _ _ (by omega) heqb
                    · exact Except.noConfusion h
                  · exact Except.noConfusion h
        · injection h with h1
          exact AErr.noConfusion h1
    · -- checkArgs
      intro fname params args pos sc st hf h
      simp only [checkArgs] at h
      split at h
      · exact Except.noConfusion h
      · injection h with h1
        exact AErr.noConfusion h1
      · rename_i pnm pty ps a rest
        have hsz : szl (a :: rest) = 1 + sz a + szl rest := by simp [szl]
        rw [hsz] at hf
        split at h
        · rename_i er heqe
          injection h with h1
          subst h1
          exact (checkExpression_fuel fuel).1 a sc st
            (by have := sz_pos a; omega) heqe
        · rename_i at0 st1 heqe
          split at h
          · split at h
            · rename_i er heqr
              injection h with h1
              subst h1
              exact ihR _ _ (by simp [mm, bSize]; omega) heqr
            · rename_i rt st2 heqr
              split at h
              · injection h with h1
                exact AErr.noConfusion h1
              · exact ihA _ _ _ _ _ _ (by omega) h
          · split at h
            · injection h with h1
              exact AErr.noConfusion h1
            · exact ihA _ _ _ _ _ _ (by omega) h
    · -- checkBranchFn
      intro fi c st hf h
      simp only [checkBranchFn] at h
      split at h
      · split at h
        · rename_i n heqb
          have hb : bSize c.branch = sz n := by
            rw [heqb]
            simp [bSize]
          split at h
          · rename_i er heqr
            injection h with h1
            subst h1
            exact ihR _ _ (by simp [mm, bSize]; omega) heqr
          · rename_i bt st1 heqr
            split at h
            · injection h with h1
              exact AErr.noConfusion h1
            · split at h
              · rename_i er heqo
                injection h with h1
                subst h1
                exact checkOperator_not_fuel _ _ _ heqo
              · exact Except.noConfusion h
        · injection h with h1
          exact AErr.noConfusion h1
      · split at h
        · injection h with h1
          exact AErr.noConfusion h1
        · split at h
          · rename_i er heqo
            injection h with h1
            subst h1
            exact checkOperator_not_fuel _ _ _ heqo
          · exact Except.noConfusion h

/-! ## SD: the drain loop never exhausts fuel at the potential bound -/

theorem drainFuel_not_fuel : ∀ n st, phi st ≤ n →
    drainFuel n st ≠ .error .fuel := by
  intro n
  induction n with
  | zero =>
    intro st hp h
    rw [drainFuel] at h
    split at h
    · exact Except.noConfusion h
    · rename_i c rest heqs
      have h1 : phi st = wcall c + wsum rest := by
        rw [phi, heqs, wsum_cons]
      have h2 := wcall_pos c
      omega
  | succ n ih =>
    intro st hp h
    rw [drainFuel] at h
    split at h
    · exact Except.noConfusion h
    · rename_i c rest heqs
      split at h
      · rename_i heqf
        exact absurd heqf (by omega)
      · rename_i m heqf
        obtain rfl : m = n := by omega
        split at h
        · rename_i er heqr
          injection h with h1
          subst h1
          exact (pass2_fuel (resolveFuel c)).1 c _ (by simp [resolveFuel]) heqr
        · rename_i t st1 heqr
          obtain ⟨new, hs, hw⟩ :=
            (pass2_stack (resolveFuel c)).1 c _ t st1 heqr
          have h2 : phi st = wcall c + wsum rest := by
            rw [phi, heqs, wsum_cons]
          have h3 : phi st1 = wsum new + wsum rest := by
            rw [phi, hs, wsum_append]
          have hw2 : wsum new < wcall c := hw
          exact ih st1 (by omega) h

/-! ## Claim theorems -/

/-- C1 (counterexample): the claim asserts analyze succeeds on a program
whose only violation candidate is a well-typed return nested inside an if
block of a function body; on progReturnNested the analyzer instead fails,
because checkReturn looks up a function named after the immediately
enclosing scope, which is the if-block scope named if. -/
theorem c1_nested_return_fails :
    analyze progReturnNested = .error (.err "Function if is not defined.") := by
  rfl

/-- C1 (amended): checkReturn resolves a function under the name of the
immediately enclosing scope (the lookup itself walks the scope chain), so
a well-typed return directly in the body scope of f type-checks against
the signature of f and analyze succeeds, while the same return nested
inside an if block makes analyze fail with a function-not-defined error
naming the block scope. -/
theorem c1_return_enclosing_scope_amended :
    analyze progReturnDirect = .ok true ∧
    analyze progReturnNested = .error (.err "Function if is not defined.") := by
  exact ⟨rfl, rfl⟩

/-- C2 (code bug): analyze accepts a program whose else-if condition is
the int literal 1 and whose else-if body references an undeclared name,
because checkIfStatement guards the else-if walk with the absent field
elseIfs while the parser stores clauses under elseIf; the dead checker
checkElseIfs itself would reject the same clause list. -/
theorem c2_elseif_never_checked :
    analyze progBadElseIf = .ok true ∧
    checkElseIfs 9 [(.Literal "int" "1",
        [.ExpressionStatement (.Identifier "nope")])] 0 oneScopeState =
      .error (.err "Condition must be boolean, got int") := by
  exact ⟨rfl, rfl⟩

/-- C3: a break at global scope fails (the empty context stack makes the
source read a property of undefined); a break inside a while body, a
continue inside a for body, and a continue inside an if nested inside a
while all pass, because only loops push context frames and the check
reads the top frame only. -/
theorem c3_control_flow_contexts :
    analyze progBreakGlobal =
      .error (.err
        "TypeError: cannot read properties of undefined (reading inLoop)") ∧
    analyze progBreakInWhile = .ok true ∧
    analyze progContinueInFor = .ok true ∧
    analyze progContinueInIfInWhile = .ok true := by
  exact ⟨rfl, rfl, rfl, rfl⟩

/-- C4: a program in which the body of f returns a call to g succeeds
even though g is declared after f: the call is registered as pending
during pass 1 and resolved by resolveCalls only after the whole tree has
been walked, when the signature of g is present in the global scope seen
from the scope of f. -/
theorem c4_forward_reference_resolved :
    analyze progForwardRef = .ok true := by
  rfl

/-- C5: parseExpression on the tokens of 1 + 2 * 3 builds a plus node
whose right operand is the times node, and on the tokens of 2 ^ 3 ^ 4
builds right-associated nesting 2 ^ (3 ^ 4). -/
theorem c5_operator_precedence :
    parseExpression toksPrecedence 99 0 0 =
      .ok (.BinaryExpression "+" (.Literal "int" "1")
        (.BinaryExpression "*" (.Literal "int" "2") (.Literal "int" "3")), 5) ∧
    parseExpression toksCaret 99 0 0 =
      .ok (.BinaryExpression "^" (.Literal "int" "2")
        (.BinaryExpression "^" (.Literal "int" "3") (.Literal "int" "4")), 5) := by
  exact ⟨rfl, rfl⟩

/-- C6: draining the pending-call stack always terminates. With fuel equal
to the potential phi of the state (the summed weights of its pending
calls), the drain loop never exhausts its fuel, so the unbounded while
loop of resolveCalls in the source terminates from every reachable state.
The cycle clause of the claim is vacuous: every recursive resolution step
descends to a strict subexpression of a finite parsed tree (an argument or
branch node of the popped entry), so no pending call can ever require
resolving itself, and indeed the code has no cycle-detection error path. -/
theorem c6_drain_terminates (st : AState) :
    drainFuel (phi st) st ≠ .error .fuel :=
  drainFuel_not_fuel (phi st) st (Nat.le_refl _)

/-- C7 (counterexample): the claim asserts the pending stack length never
exceeds its length at the start of draining an entry; on
progTwoPendingArgs pass 1 leaves exactly one pending entry, and draining
that single entry leaves two entries on the stack - the calls to g and h
found inside the binary-expression arguments are pushed and not popped
while the entry for f is being resolved. -/
theorem c7_stack_growth_counterexample :
    stackLenAfterPass1 progTwoPendingArgs = .ok 1 ∧
    stackLenAfterFirstResolve progTwoPendingArgs = .ok 2 := by
  exact ⟨rfl, rfl⟩

/-- C7 (amended): resolveCalls pops the most recently registered entry,
and an argument that is itself a bare unresolved call is resolved
immediately and recursively; but pending calls discovered while
type-checking an argument subexpression (here the binary expressions
1 + g() and 2 + h()) are pushed and remain on the stack, so the stack can
grow beyond its length at the start of draining an entry - on
progTwoPendingArgs from one entry to two - and the outer drain loop then
resolves them, completing analysis successfully. -/
theorem c7_stack_lifo_amended :
    stackLenAfterPass1 progTwoPendingArgs = .ok 1 ∧
    stackLenAfterFirstResolve progTwoPendingArgs = .ok 2 ∧
    analyze progTwoPendingArgs = .ok true := by
  refine ⟨rfl, rfl, ?_⟩
  have h1 : pass1 progTwoPendingArgs = .ok stTP1 := rfl
  have hphi : phi stTP1 = 512 := rfl
  have d1 : drainFuel 512 stTP1 = drainFuel 511 stTP2 := rfl
  have d2 : drainFuel 511 stTP2 = drainFuel 510 stTP3 := rfl
  have d3 : drainFuel 510 stTP3 = drainFuel 509 stTP4 := rfl
  have d4 : drainFuel 509 stTP4 = .ok stTP4 := rfl
  unfold analyze
  rw [h1]
  dsimp only
  rw [hphi, d1, d2, d3, d4]

/-- C8: declaring the same variable twice in one scope makes analyze fail
with the redeclaration error, while the same two declarations in nested
scopes (the second inside an if body) succeed, since each block body is
checked in a fresh child scope and declareVariable only consults the
current scope. -/
theorem c8_redeclaration_and_shadowing :
    analyze progRedecl =
      .error (.err "Variable x already declared in this scope.") ∧
    analyze progShadow = .ok true := by
  exact ⟨rfl, rfl⟩

/-- C10: loop context frames are not cleared at function boundaries:
checkFunctionDeclaration never touches the context stack, so a break
directly inside the body of a function declared in a while body sees the
while frame on top of the stack and analyze accepts the program; the same
function at global scope (no enclosing loop frame) is rejected, showing
the acceptance comes from the inherited loop frame. -/
theorem c10_break_inside_function_in_loop :
    analyze progBreakInFnInWhile = .ok true ∧
    analyze progBreakInFnAtGlobal =
      .error (.err
        "TypeError: cannot read properties of undefined (reading inLoop)") := by
  exact ⟨rfl, rfl⟩

/-- C9: for an arithmetic operator, when the left operand types to the
unresolved-call sentinel, checkBinaryExpression (the BinaryExpression arm
of checkExpression) returns the concrete type int - regardless of the
right side and of the return type the called function will turn out to
have - and a variable declaration of any type other than int whose
initializer is such an expression already fails in pass 1 with a type
mismatch against int. -/
theorem c9_arith_pending_left_is_int
    (fuel : Nat) (op : String) (l r : ASTNode) (sc : Nat)
    (st st1 st2 : AState) (t : Option String)
    (hop : op ∈ ["+", "-", "*", "/", "^", "%"])
    (hl : checkExpression fuel l sc st = .ok (some "FunctionCall", st1))
    (hr : checkExpression fuel r sc st1 = .ok (t, st2)) :
    (∃ st3, checkExpression (fuel+2) (.BinaryExpression op l r) sc st =
      .ok (some "int", st3)) ∧
    (∀ dt nm, dt ≠ "int" →
      checkVariableDeclaration (fuel+2) dt nm (.BinaryExpression op l r) sc st =
        .error (.err ("Type mismatch: variable " ++ nm ++ " is type " ++ dt ++
          " but got int"))) := by
  have hbin : ∃ st3, checkExpression (fuel+2) (.BinaryExpression op l r) sc st =
      .ok (some "int", st3) := by
    refine ⟨?_, ?_⟩
    case _ => exact
      (if (some "FunctionCall" : Option String) = some "FunctionCall" ∧ t = some "FunctionCall" then
        pushBranchCall l sc (.nodeB r) (some op) st2
      else if t = some "FunctionCall" then
        pushBranchCall r sc (toBranch (some "FunctionCall")) (some op) st2
      else pushBranchCall l sc (toBranch t) (some op) st2)
    case _ =>
      show checkExpression (fuel+1+1) _ _ _ = _
      simp only [checkExpression, checkBinaryExpression]
      rw [hl]
      simp only
      rw [hr]
      simp only [List.mem_cons, List.not_mem_nil, or_false] at hop
      rcases hop with rfl | rfl | rfl | rfl | rfl | rfl <;>
        by_cases ht : t = some "FunctionCall" <;>
        simp [ht]
  refine ⟨hbin, ?_⟩
  obtain ⟨st3, hb⟩ := hbin
  intro dt nm hdt
  simp only [checkVariableDeclaration]
  rw [hb]
  have : some dt ≠ (some "int" : Option String) := by simpa using hdt
  simp [this, showT]
  rw [String.append_assoc]
  congr 1

/-- Witness for C9 at a concrete input: float v = g() + 2 is rejected in
pass 1 with a mismatch against int, whatever g will return. -/
theorem c9_arith_pending_left_is_int_witness :
    checkVariableDeclaration 7 "float" "v"
        (.BinaryExpression "+" (.FunctionCall "g" []) (.Literal "int" "2"))
        0 oneScopeState =
      .error (.err ("Type mismatch: variable " ++ "v" ++ " is type " ++
        "float" ++ " but got int")) :=
  (c9_arith_pending_left_is_int 5 "+" (.FunctionCall "g" [])
    (.Literal "int" "2") 0 oneScopeState oneScopeState oneScopeState
    (some "int") (by decide) rfl rfl).2 "float" "v" (by decide)

end Hysteria
